import Mathlib

set_option maxHeartbeats 1000000

/- Shallow embedding of `src/Sc-db.py` (the script manager): a script catalog
   with compressed, integrity-checked backups, restore, a process-table
   "in use" heuristic, and a background pending-backup scheduler. -/

namespace ScDb

/-! ### Bytes, the compression codec, and the digest (ContentStore) -/

/-- Byte buffers are lists of naturals (each below 256 in reality; none of
the claims depends on the bound). -/
abbrev Bytes := List Nat

/-- Length of the leading run of byte `b`, capped so a count fits in one
byte of the encoded stream. -/
def takeRun (b : Nat) : Nat → Bytes → Nat
  | _, [] => 0
  | 0, _ => 0
  | cap + 1, c :: rest => if c = b then takeRun b cap rest + 1 else 0

/-- Modelled from the spec: `zlib.compress` (the body of `compress_bytes`).
The DEFLATE codec is an external library, not code of this repository; per
spec 4.1 it is a "deterministic lossless compression; no size or content
precondition", with the empty input yielding a valid empty payload.  It is
modelled by a run-length code with exactly those interface properties. -/
def zlibCompress : Bytes → Bytes
  | [] => []
  | b :: rest =>
    (takeRun b 254 rest + 1) :: b :: zlibCompress (rest.drop (takeRun b 254 rest))
termination_by l => l.length
decreasing_by simp [List.length_drop]; omega

/-- Modelled from the spec: `zlib.decompress` (the body of
`decompress_bytes`); `none` models `zlib.error` on an input that is not a
valid stream of the codec (spec 4.1: the only error surface of the
component). -/
def zlibDecompress : Bytes → Option Bytes
  | [] => some []
  | [_] => none
  | c :: b :: rest =>
    if c = 0 then none
    else
      match zlibDecompress rest with
      | none => none
      | some tail => some (List.replicate c b ++ tail)

/-- `compress_bytes` from the source: wraps the compression codec. -/
def compress_bytes (b : Bytes) : Bytes := zlibCompress b

/-- `decompress_bytes` from the source: wraps decompression. -/
def decompress_bytes (b : Bytes) : Option Bytes := zlibDecompress b

/-- Modelled from the spec: `hashlib.sha256(...).hexdigest()` (the body of
`sha256_bytes`) — a "deterministic cryptographic content hash" (spec 4.1)
used only for integrity comparison.  Modelled as a numeric fingerprint of
the content rendered as a nonempty string: the program uses only
determinism, string equality, and nonemptiness of real digests. -/
def sha256_bytes (b : Bytes) : String :=
  "h" ++ toString (b.foldl (fun a c => a * 256 + c % 256) 1)

theorem takeRun_take (b : Nat) :
    ∀ (l : Bytes) (cap : Nat),
      l.take (takeRun b cap l) = List.replicate (takeRun b cap l) b := by
  intro l
  induction l with
  | nil => intro cap; cases cap <;> simp [takeRun]
  | cons c rest ih =>
    intro cap
    cases cap with
    | zero => simp [takeRun]
    | succ k =>
      by_cases hc : c = b
      · subst hc
        simp [takeRun, List.replicate_succ, ih k]
      · simp [takeRun, hc]

theorem zlib_roundtrip : ∀ (l : Bytes), zlibDecompress (zlibCompress l) = some l
  | [] => by simp [zlibCompress, zlibDecompress]
  | b :: rest => by
    rw [zlibCompress]
    have hrec := zlib_roundtrip (rest.drop (takeRun b 254 rest))
    simp only [zlibDecompress, Nat.succ_ne_zero, if_false, hrec]
    rw [List.replicate_succ]
    rw [← takeRun_take b rest 254]
    simp [List.take_append_drop]
termination_by l => l.length
decreasing_by simp [List.length_drop]; omega

/-- C2: for every byte buffer `B`, including the empty buffer,
decompressing the result of compressing `B` returns exactly `B`:
compression is total on byte buffers and decompression inverts it. -/
theorem compress_decompress_roundtrip (B : Bytes) :
    decompress_bytes (compress_bytes B) = some B :=
  zlib_roundtrip B

/-! ### Paths and string helpers (`os.path` as used by the source) -/

/-- `os.path.join` for the relative path components the program builds. -/
def joinPath (a b : String) : String := a ++ "/" ++ b

/-- `os.path.basename`: everything after the last separator. -/
def basename (p : String) : String :=
  ⟨(p.data.reverse.takeWhile (fun c => c != '/')).reverse⟩

/-- Boolean list-prefix test (helper for substring and path-prefix checks). -/
def isPrefList : List Char → List Char → Bool
  | [], _ => true
  | _ :: _, [] => false
  | a :: as, b :: bs => a == b && isPrefList as bs

/-- Helper: does `needle` occur as a contiguous subsequence? -/
def containsSeq (needle : List Char) : List Char → Bool
  | [] => isPrefList needle []
  | c :: rest => isPrefList needle (c :: rest) || containsSeq needle rest

/-- Python's `needle in hay` substring test on strings. -/
def strContains (hay needle : String) : Bool := containsSeq needle.data hay.data

def BACKUPS_DIR : String := "backups"

def REPRODUCED_DIR : String := "reproduced"

def DATA_FILE : String := "scripts.json"

/-! ### Data model: script records, manifests, the filesystem state -/

/-- A catalog record (a dict in the source); a missing `name`/`path` key is
the empty string, a missing `pending_backup` key is `false` (the source
only ever tests truthiness of these entries). -/
structure Script where
  name : String
  path : String
  description : String
  pending_backup : Bool
deriving DecidableEq, Repr

instance : Inhabited Script := ⟨⟨"", "", "", false⟩⟩

/-- One entry of the manifest's `files` map. -/
structure FileEntry where
  backup_file : String
  sha256 : String
  orig_size : Nat
deriving DecidableEq, Repr

/-- The `metadata.json` record written next to the blobs. -/
structure Manifest where
  original_path : String
  description : String
  timestamp : String
  files : List (String × FileEntry)
deriving DecidableEq, Repr

/-- Contents of a file on disk.  Structured JSON files (the manifest, the
catalog) are kept structurally rather than as serialized text: the source
round-trips them through `json.dump`/`json.load`, which this embedding
models as the identity on the structure. -/
inductive FileData where
  | bytes (b : Bytes)
  | manifest (m : Manifest)
  | catalog (l : List Script)
deriving DecidableEq, Repr

/-- Log of state-changing filesystem operations, in execution order. -/
inductive Event where
  | mkdir (p : String)
  | write (p : String)
deriving DecidableEq, Repr

/-- Filesystem state: files (newest entry for a path shadows older ones,
modelling overwrite), directories, and the operation log. -/
structure FS where
  files : List (String × FileData)
  dirs : List String
  log : List Event
deriving DecidableEq, Repr

def FS.read (fs : FS) (p : String) : Option FileData :=
  (fs.files.find? (fun e => decide (e.1 = p))).map Prod.snd

/-- `os.path.exists`: true for files and for directories. -/
def FS.existsPath (fs : FS) (p : String) : Bool :=
  fs.files.any (fun e => decide (e.1 = p)) || fs.dirs.any (fun d => decide (d = p))

def FS.writePure (fs : FS) (p : String) (d : FileData) : FS :=
  { fs with files := (p, d) :: fs.files, log := fs.log ++ [Event.write p] }

/-- `os.makedirs(p, exist_ok=True)`: idempotent on the directory set. -/
def FS.mkdirPure (fs : FS) (p : String) : FS :=
  { fs with dirs := if fs.dirs.contains p then fs.dirs else p :: fs.dirs,
            log := fs.log ++ [Event.mkdir p] }

/-- Which primitive I/O operations the environment makes fail
(permission denied, disk full, ...). -/
structure FaultModel where
  mkdirFails : String → Bool
  readFails : String → Bool
  writeFails : String → Bool

def noFaults : FaultModel := ⟨fun _ => false, fun _ => false, fun _ => false⟩

def mkdirE (fm : FaultModel) (fs : FS) (p : String) : Except Unit FS :=
  if fm.mkdirFails p then .error () else .ok (fs.mkdirPure p)

def writeE (fm : FaultModel) (fs : FS) (p : String) (d : FileData) : Except Unit FS :=
  if fm.writeFails p then .error () else .ok (fs.writePure p d)

/-- `open(p, "rb").read()`.  Raises (`.error`) when the environment injects
a fault, when the path is absent, or when it is not a plain payload file
(opening a directory raises; the claims never read a structured JSON file
as a backup source). -/
def readBytesE (fm : FaultModel) (fs : FS) (p : String) : Except Unit Bytes :=
  if fm.readFails p then .error ()
  else
    match fs.read p with
    | some (.bytes b) => .ok b
    | _ => .error ()

/-! ### BackupArchive: `backup_script_to_folder` (create) -/

/-- `backup_script_to_folder` (source lines 152-210).  `ts` stands for
`datetime.now().isoformat()`.  `.error` models an exception escaping the
function; `.ok (fs, b)` models a normal return of `b`.  Note from the
source: `os.makedirs` (line 164) and the empty-`files` manifest write
(lines 174-176) sit outside the `try` block, which only guards lines
180-207. -/
def backup_script_to_folder (fm : FaultModel) (fs : FS) (ts : String) (script : Script) :
    Except Unit (FS × Bool) :=
  let name := script.name
  let src := script.path
  if name = "" then .ok (fs, false)
  else
    let folder := joinPath BACKUPS_DIR name
    match mkdirE fm fs folder with
    | .error e => .error e
    | .ok fs1 =>
      if src = "" ∨ fs1.existsPath src = false then
        let meta : Manifest := ⟨src, script.description, ts, []⟩
        match writeE fm fs1 (joinPath folder "metadata.json") (.manifest meta) with
        | .error e => .error e
        | .ok fs2 => .ok (fs2, false)
      else
        match readBytesE fm fs1 src with
        | .error _ => .ok (fs1, false)
        | .ok raw =>
          let base := basename src
          let out_file := joinPath folder (base ++ ".gz")
          match writeE fm fs1 out_file (.bytes (compress_bytes raw)) with
          | .error _ => .ok (fs1, false)
          | .ok fs2 =>
            let meta : Manifest :=
              ⟨src, script.description, ts,
                [(base, ⟨basename out_file, sha256_bytes raw, raw.length⟩)]⟩
            match writeE fm fs2 (joinPath folder "metadata.json") (.manifest meta) with
            | .error _ => .ok (fs2, false)
            | .ok fs3 => .ok (fs3, true)

/-! ### BackupArchive: `reproduce_script_to_default` (restore) -/

/-- Per-file messages printed by restore, plus the outer-handler message. -/
inductive RWarn where
  | backupDataMissing (orig : String)
  | decompressFailed (p : String)
  | shaMismatch (orig : String)
  | metaReadFailed
deriving DecidableEq, Repr

inductive RestoreOutcome where
  | noBackupFound
  | reproduced (n : Nat)
deriving DecidableEq, Repr

/-- Body of the per-manifest-entry loop of `reproduce_script_to_default`
(source lines 232-251).  `.error` models an exception reaching the
enclosing `try` of the metadata branch (e.g. opening a directory);
decompressing a structured JSON file fails because JSON text is never a
valid zlib stream. -/
def restoreEntryE (fs : FS) (folder target_dir orig : String) (info : FileEntry) :
    Except Unit (FS × Nat × List RWarn) :=
  let gz_path := joinPath folder info.backup_file
  if fs.existsPath gz_path = false then .ok (fs, 0, [.backupDataMissing orig])
  else
    match fs.read gz_path with
    | none => .error ()
    | some (.bytes raw) =>
      match decompress_bytes raw with
      | none => .ok (fs, 0, [.decompressFailed gz_path])
      | some data =>
        let fs' := fs.writePure (joinPath target_dir orig) (.bytes data)
        if info.sha256 ≠ "" ∧ info.sha256 ≠ sha256_bytes data then
          .ok (fs', 1, [.shaMismatch orig])
        else .ok (fs', 1, [])
    | some _ => .ok (fs, 0, [.decompressFailed gz_path])

/-- The manifest-driven loop: an exception aborts the remaining entries
(caught by the outer handler as "Failed reading metadata") while files
already written and counted stay. -/
def restoreLoop (folder target_dir : String) :
    FS → List (String × FileEntry) → FS × Nat × List RWarn
  | fs, [] => (fs, 0, [])
  | fs, (orig, info) :: rest =>
    match restoreEntryE fs folder target_dir orig info with
    | .error _ => (fs, 0, [.metaReadFailed])
    | .ok (fs1, n, ws) =>
      match restoreLoop folder target_dir fs1 rest with
      | (fs2, m, ws2) => (fs2, n + m, ws ++ ws2)

/-- A directory listing entry: the tail of `p` under directory `d`, when
`p` is directly inside `d`. -/
def childName (d p : String) : Option String :=
  let dd := d.data ++ ['/']
  if isPrefList dd p.data then
    let rest := p.data.drop dd.length
    if rest.contains '/' then none else some ⟨rest⟩
  else none

/-- `os.listdir` restricted to plain files (the archive folders the source
creates contain only files). -/
def FS.listdir (fs : FS) (d : String) : List String :=
  ((fs.files.map Prod.fst).eraseDups).filterMap (childName d)

/-- The fallback scan over `*.gz` files when no manifest exists
(source lines 255-270). -/
def fallbackLoop (folder target_dir : String) :
    FS → List String → FS × Nat × List RWarn
  | fs, [] => (fs, 0, [])
  | fs, f :: rest =>
    if f.endsWith ".gz" then
      match fs.read (joinPath folder f) with
      | some (.bytes raw) =>
        match decompress_bytes raw with
        | none =>
          match fallbackLoop folder target_dir fs rest with
          | (fs2, m, ws2) => (fs2, m, .decompressFailed (joinPath folder f) :: ws2)
        | some data =>
          match fallbackLoop folder target_dir
              (fs.writePure (joinPath target_dir (f.dropRight 3)) (.bytes data)) rest with
          | (fs2, m, ws2) => (fs2, 1 + m, ws2)
      | _ =>
        match fallbackLoop folder target_dir fs rest with
        | (fs2, m, ws2) => (fs2, m, .decompressFailed (joinPath folder f) :: ws2)
    else fallbackLoop folder target_dir fs rest

/-- `reproduce_script_to_default` (source lines 212-275).  Restore performs
no fault-injected I/O in this embedding: the claims about it concern its
fault-free control flow. -/
def reproduce_script_to_default (fs : FS) (script : Script) :
    FS × RestoreOutcome × List RWarn :=
  let name := script.name
  let folder := joinPath BACKUPS_DIR name
  if fs.existsPath folder = false then (fs, .noBackupFound, [])
  else
    let target_dir := joinPath REPRODUCED_DIR name
    let fs1 := fs.mkdirPure target_dir
    let meta_path := joinPath folder "metadata.json"
    if fs1.existsPath meta_path then
      match fs1.read meta_path with
      | some (.manifest meta) =>
        match restoreLoop folder target_dir fs1 meta.files with
        | (fs2, n, ws) => (fs2, .reproduced n, ws)
      | _ => (fs1, .reproduced 0, [.metaReadFailed])
    else
      match fallbackLoop folder target_dir fs1 (fs1.listdir folder) with
      | (fs2, n, ws) => (fs2, .reproduced n, ws)

/-! ### RunningFileDetector: `is_running` -/

/-- One row of `psutil.process_iter(['pid','name','cmdline','exe'])`;
`raises` marks a process whose inspection raises `NoSuchProcess` or
`AccessDenied` (skipped by the source's inner `try`). -/
structure ProcInfo where
  pname : String
  cmdline : List String
  exe : String
  raises : Bool

/-- The host environment seen by the detector: whether psutil imported,
the live process table, and `os.path.abspath`. -/
structure Env where
  psutil_available : Bool
  procs : List ProcInfo
  abspath : String → String

/-- `is_running` (source lines 82-108). -/
def is_running (env : Env) (path : String) : Bool :=
  if env.psutil_available = false then false
  else
    let target_name := basename path
    let target_path := env.abspath path
    env.procs.any (fun proc =>
      if proc.raises then false
      else
        (proc.cmdline.any (fun x => x != "" && env.abspath x == target_path)) ||
        (proc.exe != "" && (basename proc.exe).toLower == target_name.toLower) ||
        (proc.cmdline.any (fun x => strContains x target_name)))

/-! ### Catalog persistence and the pending-backup scheduler -/

/-- `load_scripts`: a missing or unparsable `scripts.json` yields `[]`. -/
def load_scripts (fs : FS) : List Script :=
  match fs.read DATA_FILE with
  | some (.catalog l) => l
  | _ => []

def save_scripts (fm : FaultModel) (fs : FS) (scripts : List Script) : Except Unit FS :=
  writeE fm fs DATA_FILE (.catalog scripts)

/-- Body of the per-record conditional inside `PendingBackupWorker.run`
(source lines 290-299): returns the updated filesystem, the updated
record, whether this record counted as pending, and whether its flag was
cleared. -/
def sweepOne (e : Env) (fm : FaultModel) (ts : String) (fs : FS) (s : Script) :
    Except Unit (FS × Script × Bool × Bool) :=
  if s.pending_backup then
    if is_running e s.path = false then
      match backup_script_to_folder fm fs ts s with
      | .error err => .error err
      | .ok (fs', ok) =>
        .ok (fs', (if ok then { s with pending_backup := false } else s), true, ok)
    else .ok (fs, s, true, false)
  else .ok (fs, s, false, false)

/-- The `for s in scripts` sweep of `PendingBackupWorker.run`. -/
def sweepGo (e : Env) (fm : FaultModel) (ts : String) (fs : FS) :
    List Script → Except Unit (FS × List Script × Bool × Bool)
  | [] => .ok (fs, [], false, false)
  | s :: rest =>
    match sweepOne e fm ts fs s with
    | .error err => .error err
    | .ok (fs1, s', pa1, ch1) =>
      match sweepGo e fm ts fs1 rest with
      | .error err => .error err
      | .ok (fs2, rest', pa2, ch2) => .ok (fs2, s' :: rest', pa1 || pa2, ch1 || ch2)

/-- One iteration of the `while` loop of `PendingBackupWorker.run`
(source lines 286-306): load, sweep, save when changed; the returned flag
is true when the loop exits ("nothing pending -> exit quietly"). -/
def workerIter (e : Env) (fm : FaultModel) (ts : String) (fs : FS) :
    Except Unit (FS × Bool) :=
  let scripts := load_scripts fs
  match sweepGo e fm ts fs scripts with
  | .error err => .error err
  | .ok (fs1, scripts', pending_any, changed) =>
    match (if changed then save_scripts fm fs1 scripts' else .ok fs1) with
    | .error err => .error err
    | .ok fs2 => .ok (fs2, !pending_any)

/-- `PendingBackupWorker.run`, iterated for at most `fuel` sweeps starting
at sweep index `t`; `envs t` is the process table observed by sweep `t`.
The stop event is never set during normal operation and is not modelled.
Result flag: true when the loop returned (went idle), false when the fuel
ran out with the loop still polling. -/
def workerRun (envs : Nat → Env) (fm : FaultModel) (ts : String) :
    Nat → Nat → FS → Except Unit (FS × Bool)
  | 0, _, fs => .ok (fs, false)
  | fuel + 1, t, fs =>
    match workerIter (envs t) fm ts fs with
    | .error err => .error err
    | .ok (fs1, halted) =>
      if halted then .ok (fs1, true) else workerRun envs fm ts fuel (t + 1) fs1

/-- `backup_now_interactive` (source lines 446-465) after the index has
been read from the user: menu option 7, "Backup now (force)". -/
def backup_now_interactive (env : Env) (fm : FaultModel) (ts : String) (fs : FS)
    (scripts : List Script) (idx : Nat) : Except Unit (FS × List Script) :=
  if idx < scripts.length then
    let s := scripts.getD idx default
    if is_running env s.path then
      let scripts' := scripts.set idx { s with pending_backup := true }
      match save_scripts fm fs scripts' with
      | .error e => .error e
      | .ok fs' => .ok (fs', scripts')
    else
      match backup_script_to_folder fm fs ts s with
      | .error e => .error e
      | .ok (fs1, _ok) =>
        let scripts' := scripts.set idx { s with pending_backup := false }
        match save_scripts fm fs1 scripts' with
        | .error e => .error e
        | .ok fs' => .ok (fs', scripts')
  else .ok (fs, scripts)

/-! ### Filesystem helper lemmas -/

theorem FS.read_writePure_self (fs : FS) (p : String) (d : FileData) :
    (fs.writePure p d).read p = some d := by
  simp [FS.read, FS.writePure]

theorem FS.read_writePure_ne (fs : FS) {p q : String} (h : q ≠ p) (d : FileData) :
    (fs.writePure p d).read q = fs.read q := by
  simp [FS.read, FS.writePure, List.find?_cons, Ne.symm h]

theorem FS.read_mkdirPure (fs : FS) (p q : String) :
    (fs.mkdirPure p).read q = fs.read q := rfl

theorem FS.existsPath_mkdirPure_self (fs : FS) (p : String) :
    (fs.mkdirPure p).existsPath p = true := by
  simp only [FS.existsPath, FS.mkdirPure, Bool.or_eq_true, List.any_eq_true,
    decide_eq_true_eq]
  right
  refine ⟨p, ?_, rfl⟩
  split
  · next h => simpa using h
  · exact List.mem_cons_self p _

theorem FS.existsPath_mkdirPure_mono (fs : FS) (p q : String)
    (h : fs.existsPath q = true) : (fs.mkdirPure p).existsPath q = true := by
  simp only [FS.existsPath, FS.mkdirPure, Bool.or_eq_true, List.any_eq_true,
    decide_eq_true_eq] at h ⊢
  rcases h with h | ⟨d, hd, rfl⟩
  · exact Or.inl h
  · refine Or.inr ⟨d, ?_, rfl⟩
    split
    · exact hd
    · exact List.mem_cons_of_mem _ hd

theorem FS.existsPath_writePure_mono (fs : FS) (p : String) (d : FileData) (q : String)
    (h : fs.existsPath q = true) : (fs.writePure p d).existsPath q = true := by
  simp only [FS.existsPath, FS.writePure, Bool.or_eq_true, List.any_eq_true,
    decide_eq_true_eq] at h ⊢
  rcases h with ⟨e, he, hq⟩ | h
  · exact Or.inl ⟨e, List.mem_cons_of_mem _ he, hq⟩
  · exact Or.inr h

theorem FS.existsPath_of_read (fs : FS) (q : String) (d : FileData)
    (h : fs.read q = some d) : fs.existsPath q = true := by
  simp only [FS.read, Option.map_eq_some'] at h
  obtain ⟨e, he, -⟩ := h
  have hm := List.mem_of_find?_eq_some he
  have hp := List.find?_some he
  simp only [decide_eq_true_eq] at hp
  simp only [FS.existsPath, Bool.or_eq_true, List.any_eq_true, decide_eq_true_eq]
  exact Or.inl ⟨e, hm, hp⟩

/-! ### Path algebra lemmas -/

theorem data_join (a b : String) : (joinPath a b).data = a.data ++ '/' :: b.data := by
  simp [joinPath, String.data_append]

theorem joinPath_right_ne {a b : String} (d : String) (h : a ≠ b) :
    joinPath d a ≠ joinPath d b := by
  intro he
  apply h
  have h2 := congrArg String.data he
  rw [data_join, data_join] at h2
  have h3 := List.append_cancel_left h2
  exact String.ext (by injection h3)

theorem gz_ne_metadata (base : String) : (base ++ ".gz") ≠ "metadata.json" := by
  intro h
  have h2 := congrArg (fun s : String => s.data.reverse) h
  simp only [String.data_append, show (".gz" : String).data = ['.', 'g', 'z'] from rfl,
    show ("metadata.json" : String).data =
      ['m', 'e', 't', 'a', 'd', 'a', 't', 'a', '.', 'j', 's', 'o', 'n'] from rfl,
    List.reverse_append] at h2
  simp at h2

theorem takeWhile_append_stop {p : Char → Bool} {c : Char} (hc : p c = false)
    (u v : List Char) : (u ++ c :: v).takeWhile p = u.takeWhile p := by
  induction u with
  | nil => simp [List.takeWhile_cons, hc]
  | cons a u ih => cases ha : p a <;> simp [List.takeWhile_cons, ha, ih]

theorem basename_join (a b : String) : basename (joinPath a b) = basename b := by
  unfold basename
  rw [data_join, List.reverse_append, List.reverse_cons, List.append_assoc,
    List.singleton_append]
  rw [takeWhile_append_stop (by decide) b.data.reverse]

theorem basename_no_slash (s : String) : ∀ c ∈ (basename s).data, (c != '/') = true := by
  intro c hc
  unfold basename at hc
  simp only [List.mem_reverse] at hc
  have := List.mem_takeWhile_imp (p := fun c => c != '/') hc
  simpa using this

theorem basename_eq_self {s : String} (h : ∀ c ∈ s.data, (c != '/') = true) :
    basename s = s := by
  apply String.ext
  unfold basename
  show (s.data.reverse.takeWhile (fun c => c != '/')).reverse = s.data
  rw [List.takeWhile_eq_self_iff.mpr (by intro x hx; exact h x (List.mem_reverse.mp hx))]
  exact List.reverse_reverse _

theorem basename_join_gz (folder src : String) :
    basename (joinPath folder (basename src ++ ".gz")) = basename src ++ ".gz" := by
  rw [basename_join]
  apply basename_eq_self
  intro c hc
  rw [String.data_append] at hc
  rcases List.mem_append.mp hc with h | h
  · exact basename_no_slash src c h
  · revert h
    show c ∈ ['.', 'g', 'z'] → _
    intro h
    fin_cases h <;> decide

/-! ### Shape of backup runs -/

/-- The archive directory for a record, `backups/<name>`. -/
def folderOf (s : Script) : String := joinPath BACKUPS_DIR s.name

/-- The manifest path for a record, `backups/<name>/metadata.json`. -/
def metaPathOf (s : Script) : String := joinPath (folderOf s) "metadata.json"

/-- The blob path for a record, `backups/<name>/<basename>.gz`. -/
def outFileOf (s : Script) : String := joinPath (folderOf s) (basename s.path ++ ".gz")

/-- The manifest a successful backup writes. -/
def mkManifest (s : Script) (ts : String) (raw : Bytes) : Manifest :=
  ⟨s.path, s.description, ts,
    [(basename s.path, ⟨basename (outFileOf s), sha256_bytes raw, raw.length⟩)]⟩

/-- A backup that returns `True` read some raw content from the source and
left the filesystem in the state: directory made, blob written, then
manifest written. -/
theorem backup_true_shape (fm : FaultModel) (fs : FS) (ts : String) (s : Script) (fs' : FS)
    (hok : backup_script_to_folder fm fs ts s = .ok (fs', true)) :
    ∃ raw, fs.read s.path = some (.bytes raw) ∧
      fs' = ((fs.mkdirPure (folderOf s)).writePure (outFileOf s)
              (.bytes (compress_bytes raw))).writePure (metaPathOf s)
              (.manifest (mkManifest s ts raw)) := by
  unfold backup_script_to_folder at hok
  by_cases h1 : s.name = ""
  · simp [h1] at hok
  rw [if_neg h1] at hok
  by_cases hmk : fm.mkdirFails (joinPath BACKUPS_DIR s.name) = true
  · simp [mkdirE, hmk] at hok
  simp only [mkdirE, hmk, if_false, Bool.false_eq_true, if_neg] at hok
  by_cases h3 : s.path = "" ∨ (fs.mkdirPure (joinPath BACKUPS_DIR s.name)).existsPath s.path = false
  · by_cases hw : fm.writeFails (joinPath (joinPath BACKUPS_DIR s.name) "metadata.json") = true <;>
      simp [h3, writeE, hw] at hok
  rw [if_neg h3] at hok
  by_cases hr : fm.readFails s.path = true
  · simp [readBytesE, hr] at hok
  simp only [readBytesE, hr, Bool.false_eq_true, if_neg, if_false, FS.read_mkdirPure] at hok
  cases hread : fs.read s.path with
  | none => rw [hread] at hok; simp at hok
  | some d =>
    rw [hread] at hok
    cases d with
    | manifest m => simp at hok
    | catalog l => simp at hok
    | bytes raw =>
      simp only at hok
      by_cases hw1 : fm.writeFails (joinPath (joinPath BACKUPS_DIR s.name) (basename s.path ++ ".gz")) = true
      · simp [writeE, hw1] at hok
      simp only [writeE, hw1, Bool.false_eq_true, if_neg, if_false] at hok
      by_cases hw2 : fm.writeFails (joinPath (joinPath BACKUPS_DIR s.name) "metadata.json") = true
      · simp [hw2] at hok
      simp only [hw2, Bool.false_eq_true, if_neg, if_false, Except.ok.injEq, Prod.mk.injEq] at hok
      refine ⟨raw, rfl, ?_⟩
      rw [← hok.1]
      rfl

/-! ### C9: restore with no archive -/

/-- C9: restoring a record whose script name has no archive directory
fails with the no-backup-found outcome and creates no partial state: the
filesystem is returned unchanged — no restore target directory and no
output files — and no warnings are reported. -/
theorem restore_no_backup_found (fs : FS) (s : Script)
    (h : fs.existsPath (joinPath BACKUPS_DIR s.name) = false) :
    reproduce_script_to_default fs s = (fs, .noBackupFound, []) := by
  unfold reproduce_script_to_default
  rw [if_pos h]

theorem restore_no_backup_found_witness :
    reproduce_script_to_default ⟨[], [], []⟩ ⟨"demo", "p", "", false⟩ =
      (⟨[], [], []⟩, .noBackupFound, []) :=
  restore_no_backup_found ⟨[], [], []⟩ ⟨"demo", "p", "", false⟩ rfl

/-! ### C3: create with a missing source -/

/-- C3: `create` on a named record whose path is empty or does not exist
on disk (existence is tested, as in the source and the spec's step order,
right after the idempotent archive-directory creation) returns normally
with the no-source outcome `False`, writes a manifest whose `files` map is
empty carrying the record's description and timestamp, and persists no
payload blob: the only file entry added is the manifest. -/
theorem create_missing_source_manifest (fs : FS) (ts : String) (s : Script)
    (h1 : s.name ≠ "")
    (h2 : s.path = "" ∨ (fs.mkdirPure (folderOf s)).existsPath s.path = false) :
    backup_script_to_folder noFaults fs ts s =
      .ok ((fs.mkdirPure (folderOf s)).writePure (metaPathOf s)
            (.manifest ⟨s.path, s.description, ts, []⟩), false) ∧
    ((fs.mkdirPure (folderOf s)).writePure (metaPathOf s)
        (.manifest ⟨s.path, s.description, ts, []⟩)).files =
      (metaPathOf s, .manifest ⟨s.path, s.description, ts, []⟩) :: fs.files := by
  refine ⟨?_, rfl⟩
  unfold backup_script_to_folder
  rw [if_neg h1]
  unfold folderOf at h2
  rcases h2 with h2 | h2 <;>
    simp [mkdirE, writeE, noFaults, h2, folderOf, metaPathOf]

def c3fs : FS := ⟨[], [], []⟩

def c3s : Script := ⟨"demo", "gone.py", "d", false⟩

theorem create_missing_source_manifest_witness :
    backup_script_to_folder noFaults c3fs "t" c3s =
      .ok ((c3fs.mkdirPure (folderOf c3s)).writePure (metaPathOf c3s)
            (.manifest ⟨c3s.path, c3s.description, "t", []⟩), false) ∧
    ((c3fs.mkdirPure (folderOf c3s)).writePure (metaPathOf c3s)
        (.manifest ⟨c3s.path, c3s.description, "t", []⟩)).files =
      (metaPathOf c3s, .manifest ⟨c3s.path, c3s.description, "t", []⟩) :: c3fs.files :=
  create_missing_source_manifest c3fs "t" c3s (by decide) (Or.inr rfl)

/-! ### C7: blob written before manifest -/

/-- C7: in every run of `create` that succeeds on an existing source file,
the operations appended to the filesystem log are exactly: make the
archive directory, write the compressed blob, then write the manifest.
The blob write strictly precedes the manifest write, so no observer of
the archive directory sees a manifest referencing a blob that has not yet
been written. -/
theorem blob_before_manifest (fm : FaultModel) (fs : FS) (ts : String) (s : Script)
    (fs' : FS) (hok : backup_script_to_folder fm fs ts s = .ok (fs', true)) :
    fs'.log = fs.log ++ [Event.mkdir (folderOf s), Event.write (outFileOf s),
      Event.write (metaPathOf s)] := by
  obtain ⟨raw, -, rfl⟩ := backup_true_shape fm fs ts s fs' hok
  simp [FS.writePure, FS.mkdirPure]

def demoFs : FS := ⟨[("f.py", .bytes [1, 2, 3])], [], []⟩

def demoScript : Script := ⟨"demo", "f.py", "d", false⟩

def demoAfter : FS :=
  match backup_script_to_folder noFaults demoFs "t" demoScript with
  | .ok (f, _) => f
  | .error _ => demoFs

theorem blob_before_manifest_witness :
    demoAfter.log = demoFs.log ++ [Event.mkdir (folderOf demoScript),
      Event.write (outFileOf demoScript), Event.write (metaPathOf demoScript)] :=
  blob_before_manifest noFaults demoFs "t" demoScript demoAfter rfl

/-! ### C10: empty recorded digest disables the integrity check -/

/-- C10: for a manifest entry whose recorded sha256 field is absent or
empty, restore performs no digest comparison: whatever the entry's restore
produces, an integrity-mismatch warning for it is never reported, and when
its blob exists and decompresses, the decompressed bytes are written
unchanged with no warning at all. -/
theorem restore_empty_sha_no_check (fs : FS) (folder target_dir orig : String)
    (info : FileEntry) (h : info.sha256 = "") :
    (∀ fs' n ws, restoreEntryE fs folder target_dir orig info = .ok (fs', n, ws) →
      RWarn.shaMismatch orig ∉ ws) ∧
    (∀ raw data, fs.read (joinPath folder info.backup_file) = some (.bytes raw) →
      decompress_bytes raw = some data →
      restoreEntryE fs folder target_dir orig info =
        .ok (fs.writePure (joinPath target_dir orig) (.bytes data), 1, [])) := by
  constructor
  · intro fs' n ws hok
    unfold restoreEntryE at hok
    rw [h] at hok
    dsimp only at hok
    split at hok
    · simp only [Except.ok.injEq, Prod.mk.injEq] at hok
      obtain ⟨-, -, rfl⟩ := hok
      simp
    · split at hok
      · exact absurd hok (by simp)
      · split at hok
        · simp only [Except.ok.injEq, Prod.mk.injEq] at hok
          obtain ⟨-, -, rfl⟩ := hok
          simp
        · rw [if_neg (by simp)] at hok
          simp only [Except.ok.injEq, Prod.mk.injEq] at hok
          obtain ⟨-, -, rfl⟩ := hok
          simp
      · simp only [Except.ok.injEq, Prod.mk.injEq] at hok
        obtain ⟨-, -, rfl⟩ := hok
        simp
  · intro raw data hread hdec
    unfold restoreEntryE
    rw [if_neg (by simp [FS.existsPath_of_read fs _ _ hread])]
    rw [hread]
    simp only [hdec, h]
    rw [if_neg (by simp)]

def c10fs : FS := ⟨[("bk/f.gz", .bytes [1, 7])], [], []⟩

theorem restore_empty_sha_no_check_witness :
    restoreEntryE c10fs "bk" "out" "f" ⟨"f.gz", "", 3⟩ =
      .ok (c10fs.writePure (joinPath "out" "f") (.bytes [7]), 1, []) :=
  (restore_empty_sha_no_check c10fs "bk" "out" "f" ⟨"f.gz", "", 3⟩ rfl).2 [1, 7] [7] rfl rfl

/-! ### C6: which I/O failures create catches -/

def c6fm : FaultModel := ⟨fun _ => true, fun _ => false, fun _ => false⟩

/-- C6 counterexample: an I/O failure during directory creation is NOT
caught — `os.makedirs` (source line 164) sits outside the `try` block
(lines 180 ff.), so on a record with a name, `create` raises instead of
returning a failure result. -/
theorem create_io_failure_counterexample :
    backup_script_to_folder c6fm ⟨[], [], []⟩ "t" ⟨"s", "p", "", false⟩ = .error () :=
  rfl

/-- C6 amended: I/O failures raised inside the `try` region — the source
read, the blob write, or the manifest write for an existing source — are
caught and surface as a normal boolean return; provided only that the
unprotected directory creation does not fail, `create` returns normally
whatever faults the protected operations raise. -/
theorem create_try_region_catches (fm : FaultModel) (fs : FS) (ts : String) (s : Script)
    (h1 : s.name ≠ "") (h2 : s.path ≠ "")
    (h3 : fs.existsPath s.path = true)
    (h4 : fm.mkdirFails (folderOf s) = false) :
    ∃ r, backup_script_to_folder fm fs ts s = .ok r := by
  unfold backup_script_to_folder
  rw [if_neg h1]
  unfold folderOf at h4
  simp only [mkdirE, h4, Bool.false_eq_true, if_false]
  have hex : (fs.mkdirPure (joinPath BACKUPS_DIR s.name)).existsPath s.path = true :=
    FS.existsPath_mkdirPure_mono fs _ _ h3
  rw [if_neg (by simp [h2, hex])]
  by_cases hr : fm.readFails s.path = true
  · simp [readBytesE, hr]
  cases hread : (fs.mkdirPure (joinPath BACKUPS_DIR s.name)).read s.path with
  | none => simp [readBytesE, hr, hread]
  | some d =>
    cases d with
    | manifest m => simp [readBytesE, hr, hread]
    | catalog l => simp [readBytesE, hr, hread]
    | bytes raw =>
      by_cases hw1 :
          fm.writeFails (joinPath (joinPath BACKUPS_DIR s.name) (basename s.path ++ ".gz")) = true
      · simp [readBytesE, hr, hread, writeE, hw1]
      by_cases hw2 : fm.writeFails (joinPath (joinPath BACKUPS_DIR s.name) "metadata.json") = true
      · simp [readBytesE, hr, hread, writeE, hw1, hw2]
      · simp [readBytesE, hr, hread, writeE, hw1, hw2]

def c6fmW : FaultModel := ⟨fun _ => false, fun _ => false, fun _ => true⟩

theorem create_try_region_catches_witness :
    ∃ r, backup_script_to_folder c6fmW demoFs "t" demoScript = .ok r :=
  create_try_region_catches c6fmW demoFs "t" demoScript (by decide) (by decide) rfl rfl

/-! ### C1: backup followed by restore reproduces the bytes -/

/-- C1: if the source file of a record holds bytes `C` and `create`
succeeds, then restoring from the unchanged archive writes, under the
restore target `reproduced/<name>/<basename>`, a file whose bytes equal
`C`, counts exactly one restored file, and reports no warnings at all —
in particular no integrity-mismatch warning for that file. -/
theorem backup_restore_integrity (fm : FaultModel) (fs : FS) (ts : String) (s : Script)
    (fs' : FS) (C : Bytes)
    (hsrc : fs.read s.path = some (.bytes C))
    (hok : backup_script_to_folder fm fs ts s = .ok (fs', true)) :
    ∃ fs2, reproduce_script_to_default fs' s = (fs2, .reproduced 1, []) ∧
      fs2.read (joinPath (joinPath REPRODUCED_DIR s.name) (basename s.path)) =
        some (.bytes C) := by
  obtain ⟨raw, hraw, rfl⟩ := backup_true_shape fm fs ts s fs' hok
  rw [hsrc] at hraw
  injection hraw with hraw2
  injection hraw2 with hraw3
  subst hraw3
  simp only [folderOf, metaPathOf, outFileOf, mkManifest]
  rw [basename_join_gz]
  refine ⟨(((((fs.mkdirPure (joinPath BACKUPS_DIR s.name)).writePure
      (joinPath (joinPath BACKUPS_DIR s.name) (basename s.path ++ ".gz"))
      (.bytes (compress_bytes C))).writePure
      (joinPath (joinPath BACKUPS_DIR s.name) "metadata.json")
      (.manifest ⟨s.path, s.description, ts,
        [(basename s.path,
          ⟨basename s.path ++ ".gz", sha256_bytes C, C.length⟩)]⟩)).mkdirPure
      (joinPath REPRODUCED_DIR s.name)).writePure
      (joinPath (joinPath REPRODUCED_DIR s.name) (basename s.path)) (.bytes C)),
    ?_, FS.read_writePure_self _ _ _⟩
  have h1 : (((fs.mkdirPure (joinPath BACKUPS_DIR s.name)).writePure
      (joinPath (joinPath BACKUPS_DIR s.name) (basename s.path ++ ".gz"))
      (.bytes (compress_bytes C))).writePure
      (joinPath (joinPath BACKUPS_DIR s.name) "metadata.json")
      (.manifest ⟨s.path, s.description, ts,
        [(basename s.path,
          ⟨basename s.path ++ ".gz", sha256_bytes C, C.length⟩)]⟩)).existsPath
      (joinPath BACKUPS_DIR s.name) = true := by
    apply FS.existsPath_writePure_mono
    apply FS.existsPath_writePure_mono
    exact FS.existsPath_mkdirPure_self fs _
  have h2 : ((((fs.mkdirPure (joinPath BACKUPS_DIR s.name)).writePure
      (joinPath (joinPath BACKUPS_DIR s.name) (basename s.path ++ ".gz"))
      (.bytes (compress_bytes C))).writePure
      (joinPath (joinPath BACKUPS_DIR s.name) "metadata.json")
      (.manifest ⟨s.path, s.description, ts,
        [(basename s.path,
          ⟨basename s.path ++ ".gz", sha256_bytes C, C.length⟩)]⟩)).mkdirPure
      (joinPath REPRODUCED_DIR s.name)).read
      (joinPath (joinPath BACKUPS_DIR s.name) "metadata.json") =
      some (.manifest ⟨s.path, s.description, ts,
        [(basename s.path,
          ⟨basename s.path ++ ".gz", sha256_bytes C, C.length⟩)]⟩) := by
    rw [FS.read_mkdirPure]
    exact FS.read_writePure_self _ _ _
  have h3 := FS.existsPath_of_read _ _ _ h2
  have hne : joinPath (joinPath BACKUPS_DIR s.name) (basename s.path ++ ".gz") ≠
      joinPath (joinPath BACKUPS_DIR s.name) "metadata.json" :=
    joinPath_right_ne _ (gz_ne_metadata (basename s.path))
  have h5 : ((((fs.mkdirPure (joinPath BACKUPS_DIR s.name)).writePure
      (joinPath (joinPath BACKUPS_DIR s.name) (basename s.path ++ ".gz"))
      (.bytes (compress_bytes C))).writePure
      (joinPath (joinPath BACKUPS_DIR s.name) "metadata.json")
      (.manifest ⟨s.path, s.description, ts,
        [(basename s.path,
          ⟨basename s.path ++ ".gz", sha256_bytes C, C.length⟩)]⟩)).mkdirPure
      (joinPath REPRODUCED_DIR s.name)).read
      (joinPath (joinPath BACKUPS_DIR s.name) (basename s.path ++ ".gz")) =
      some (.bytes (compress_bytes C)) := by
    rw [FS.read_mkdirPure]
    rw [FS.read_writePure_ne _ hne]
    exact FS.read_writePure_self _ _ _
  have h6 := FS.existsPath_of_read _ _ _ h5
  have hdec : decompress_bytes (compress_bytes C) = some C := zlib_roundtrip C
  simp only [reproduce_script_to_default, restoreLoop, restoreEntryE, h1, h2, h3, h5,
    h6, hdec, Bool.true_eq_false, if_false, ne_eq, not_true_eq_false, and_false, if_true,
    Nat.add_zero, List.append_nil]

def c1After : FS :=
  match backup_script_to_folder noFaults demoFs "t" demoScript with
  | .ok (f, _) => f
  | .error _ => demoFs

theorem backup_restore_integrity_witness :
    ∃ fs2, reproduce_script_to_default c1After demoScript = (fs2, .reproduced 1, []) ∧
      fs2.read (joinPath (joinPath REPRODUCED_DIR demoScript.name)
        (basename demoScript.path)) = some (.bytes [1, 2, 3]) :=
  backup_restore_integrity noFaults demoFs "t" demoScript c1After [1, 2, 3] rfl rfl

/-! ### C8: the in-use heuristic -/

theorem bool_if_false_and (b x : Bool) : (if b = true then false else x) = (!b && x) := by
  cases b <;> simp

/-- The spec's matching condition for one live process (spec 4.3): the
absolute target path equals the absolute form of a (nonempty) argument
token, or the (nonempty) executable's base name case-insensitively equals
the target's base name, or the target's base name occurs as a substring of
a string argument. -/
def specProcMatches (env : Env) (path : String) (p : ProcInfo) : Prop :=
  (∃ x ∈ p.cmdline, x ≠ "" ∧ env.abspath x = env.abspath path) ∨
  (p.exe ≠ "" ∧ (basename p.exe).toLower = (basename path).toLower) ∨
  (∃ x ∈ p.cmdline, strContains x (basename path) = true)

/-- C8: `is_running` returns true exactly when process enumeration is
available and some live (inspectable, non-raising) process satisfies one
of the three match conditions; and whenever process enumeration is
unavailable on the host it returns false for every path. -/
theorem is_running_characterization (env : Env) (path : String) :
    (is_running env path = true ↔
      env.psutil_available = true ∧
        ∃ p ∈ env.procs, p.raises = false ∧ specProcMatches env path p) ∧
    (env.psutil_available = false → is_running env path = false) := by
  constructor
  · unfold is_running specProcMatches
    cases hav : env.psutil_available with
    | false => simp
    | true =>
      simp only [Bool.true_eq_false, if_false, bool_if_false_and, List.any_eq_true,
        Bool.and_eq_true, Bool.not_eq_true', Bool.or_eq_true, bne_iff_ne, beq_iff_eq,
        ne_eq, true_and, or_assoc]
  · intro hna
    unfold is_running
    rw [if_pos hna]

def envNone : Env := ⟨false, [], fun s => s⟩

theorem is_running_characterization_witness :
    is_running envNone "a" = false :=
  (is_running_characterization envNone "a").2 rfl

/-! ### C4: the pending_backup flag lifecycle -/

theorem getD_set_self {α : Type} (l : List α) (i : Nat) (v d : α) (h : i < l.length) :
    (l.set i v).getD i d = v := by
  simp [List.getD_eq_getElem?_getD, List.getElem?_set_self, h]

def c4Script : Script := ⟨"s", "missing.py", "", true⟩

def c4Result : List Script :=
  match backup_now_interactive envNone noFaults "t" ⟨[], [], []⟩ [c4Script] 0 with
  | .ok (_, l) => l
  | .error _ => []

def c4FS : FS :=
  match backup_now_interactive envNone noFaults "t" ⟨[], [], []⟩ [c4Script] 0 with
  | .ok (f, _) => f
  | .error _ => ⟨[], [], []⟩

/-- C4 counterexample: a record whose source file is missing.  The
foreground backup-now path runs the backup attempt, which fails (returns
`False`, the no-source outcome), and yet unconditionally pops the
`pending_backup` flag — so the flag IS cleared after a failed attempt,
refuting "cleared ... exactly when a subsequent backup attempt succeeds —
never cleared after a failed attempt". -/
theorem pending_flag_counterexample :
    backup_script_to_folder noFaults ⟨[], [], []⟩ "t" c4Script =
      .ok ((FS.mkdirPure ⟨[], [], []⟩ (joinPath BACKUPS_DIR "s")).writePure
        (joinPath (joinPath BACKUPS_DIR "s") "metadata.json")
        (.manifest ⟨"missing.py", "", "t", []⟩), false) ∧
    c4Result = [⟨"s", "missing.py", "", false⟩] :=
  ⟨rfl, rfl⟩

/-- C4 (amended): the scheduler's per-record step never sets the flag and,
for a pending record, clears it exactly when the backup attempt it runs
succeeds — never after a failed attempt; the foreground backup-now sets
the flag when the file is judged in use, but after running a non-deferred
attempt clears it unconditionally, whether the attempt succeeded or
failed. -/
theorem pending_flag_lifecycle :
    (∀ e fm ts fs s fs' s' pa ch,
      sweepOne e fm ts fs s = .ok (fs', s', pa, ch) →
      ((s.pending_backup = false → s' = s) ∧
        (s.pending_backup = true →
          (s'.pending_backup = false ↔
            (is_running e s.path = false ∧
              backup_script_to_folder fm fs ts s = .ok (fs', true)))))) ∧
    (∀ env fm ts fs scripts idx fs' scripts',
      idx < scripts.length →
      backup_now_interactive env fm ts fs scripts idx = .ok (fs', scripts') →
      (scripts'.getD idx default).pending_backup =
        is_running env (scripts.getD idx default).path) := by
  constructor
  · intro e fm ts fs s fs' s' pa ch hok
    unfold sweepOne at hok
    cases hpend : s.pending_backup with
    | false =>
      rw [hpend] at hok
      simp only [Bool.false_eq_true, if_false, Except.ok.injEq, Prod.mk.injEq] at hok
      obtain ⟨-, rfl, -, -⟩ := hok
      exact ⟨fun _ => rfl, fun h => absurd h (by simp [hpend])⟩
    | true =>
      rw [hpend] at hok
      simp only [if_true] at hok
      refine ⟨fun h => absurd h (by simp [hpend]), fun _ => ?_⟩
      cases hir : is_running e s.path with
      | true =>
        rw [hir] at hok
        simp only [Bool.true_eq_false, if_false, Except.ok.injEq, Prod.mk.injEq] at hok
        obtain ⟨rfl, rfl, -, -⟩ := hok
        simp [hpend, hir]
      | false =>
        rw [hir] at hok
        simp only [if_true] at hok
        cases hbk : backup_script_to_folder fm fs ts s with
        | error err => rw [hbk] at hok; cases hok
        | ok r =>
          obtain ⟨fs2, ok2⟩ := r
          rw [hbk] at hok
          simp only [Except.ok.injEq, Prod.mk.injEq] at hok
          obtain ⟨rfl, rfl, -, -⟩ := hok
          cases ok2 with
          | true => simp [hbk]
          | false =>
            simp only [if_false, Bool.false_eq_true, hpend]
            constructor
            · intro h; cases h
            · rintro ⟨-, hcontr⟩
              simp at hcontr
  · intro env fm ts fs scripts idx fs' scripts' hidx hok
    unfold backup_now_interactive at hok
    rw [if_pos hidx] at hok
    dsimp only at hok
    cases hir : is_running env (scripts.getD idx default).path with
    | true =>
      rw [hir] at hok
      simp only [if_true] at hok
      cases hsv : save_scripts fm fs
          (scripts.set idx { scripts.getD idx default with pending_backup := true }) with
      | error e => rw [hsv] at hok; cases hok
      | ok fsv =>
        rw [hsv] at hok
        simp only [Except.ok.injEq, Prod.mk.injEq] at hok
        obtain ⟨-, rfl⟩ := hok
        rw [getD_set_self _ _ _ _ hidx]
    | false =>
      rw [hir] at hok
      simp only [Bool.false_eq_true, if_false] at hok
      cases hbk : backup_script_to_folder fm fs ts (scripts.getD idx default) with
      | error err => rw [hbk] at hok; cases hok
      | ok r =>
        obtain ⟨fs1, ok1⟩ := r
        rw [hbk] at hok
        simp only at hok
        cases hsv : save_scripts fm fs1
            (scripts.set idx { scripts.getD idx default with pending_backup := false }) with
        | error e => rw [hsv] at hok; cases hok
        | ok fsv =>
          rw [hsv] at hok
          simp only [Except.ok.injEq, Prod.mk.injEq] at hok
          obtain ⟨-, rfl⟩ := hok
          rw [getD_set_self _ _ _ _ hidx]

theorem pending_flag_lifecycle_witness :
    (c4Result.getD 0 default).pending_backup =
      is_running envNone (([c4Script] : List Script).getD 0 default).path :=
  pending_flag_lifecycle.2 envNone noFaults "t" ⟨[], [], []⟩ [c4Script] 0 c4FS c4Result
    (by decide) rfl

/-! ### C5: scheduler convergence -/

/-- What one sweep does to one record, functionally: clear the flag when
the record is pending and its file is not judged in use (fault-free I/O
and a good record make the backup attempt succeed). -/
def clearSweep (e : Env) (s : Script) : Script :=
  if s.pending_backup && !(is_running e s.path) then { s with pending_backup := false } else s

/-- Is an optional file payload plain bytes? -/
def isBytes : Option FileData → Bool
  | some (.bytes _) => true
  | _ => false

/-- Conditions under which a pending record's backup attempt succeeds at
every sweep: a name, and a path that is a plain readable file and is
neither under the archive tree nor the catalog file, so the scheduler's
own writes never disturb it. -/
def GoodRec (fs : FS) (s : Script) : Prop :=
  s.name ≠ "" ∧ s.path ≠ "" ∧
  isPrefList ("backups/" : String).data s.path.data = false ∧
  s.path ≠ DATA_FILE ∧ isBytes (fs.read s.path) = true

theorem isPrefList_append_self (a r : List Char) : isPrefList a (a ++ r) = true := by
  induction a with
  | nil => rfl
  | cons c cs ih => simp [isPrefList, ih]

theorem backups_path_prefix (x y : String) :
    isPrefList ("backups/" : String).data (joinPath (joinPath BACKUPS_DIR x) y).data = true := by
  have h : (joinPath (joinPath BACKUPS_DIR x) y).data =
      ("backups/" : String).data ++ (x.data ++ '/' :: y.data) := by
    rw [data_join, data_join]
    show (("backups" : String).data ++ '/' :: x.data) ++ '/' :: y.data = _
    rw [show ("backups/" : String).data = ("backups" : String).data ++ ['/'] from rfl]
    simp [List.append_assoc, List.cons_append, List.singleton_append]
  rw [h]
  exact isPrefList_append_self _ _

theorem not_prefix_ne {p q : String}
    (hp : isPrefList ("backups/" : String).data p.data = true)
    (hq : isPrefList ("backups/" : String).data q.data = false) : q ≠ p := by
  intro he
  rw [he, hp] at hq
  cases hq

theorem backups_not_prefix_data :
    isPrefList ("backups/" : String).data (DATA_FILE : String).data = false := by decide

/-- Under fault-free I/O, a backup of a named record whose path reads as
bytes succeeds and has the canonical mkdir/blob/manifest shape. -/
theorem backup_noFaults_success (fs : FS) (ts : String) (s : Script) (b : Bytes)
    (h1 : s.name ≠ "") (h2 : s.path ≠ "") (hb : fs.read s.path = some (.bytes b)) :
    backup_script_to_folder noFaults fs ts s =
      .ok (((fs.mkdirPure (folderOf s)).writePure (outFileOf s)
        (.bytes (compress_bytes b))).writePure (metaPathOf s)
        (.manifest (mkManifest s ts b)), true) := by
  have hrd : (fs.mkdirPure (joinPath BACKUPS_DIR s.name)).read s.path = some (.bytes b) := by
    rw [FS.read_mkdirPure]; exact hb
  have hex : (fs.mkdirPure (joinPath BACKUPS_DIR s.name)).existsPath s.path = true :=
    FS.existsPath_of_read _ _ _ hrd
  simp [backup_script_to_folder, mkdirE, readBytesE, writeE, noFaults, h1, h2, hex, hrd,
    folderOf, outFileOf, metaPathOf, mkManifest]

theorem sweepGo_shape (e : Env) (ts : String) :
    ∀ (scripts : List Script) (fs : FS),
    (∀ s ∈ scripts, s.pending_backup = true → GoodRec fs s) →
    ∃ fs', sweepGo e noFaults ts fs scripts =
        .ok (fs', scripts.map (clearSweep e),
          scripts.any (fun s => s.pending_backup),
          scripts.any (fun s => s.pending_backup && !(is_running e s.path))) ∧
      ∀ q, isPrefList ("backups/" : String).data q.data = false →
        fs'.read q = fs.read q := by
  intro scripts
  induction scripts with
  | nil =>
    intro fs _
    exact ⟨fs, rfl, fun q _ => rfl⟩
  | cons s rest ih =>
    intro fs hg
    by_cases hp : s.pending_backup = true
    · by_cases hr : is_running e s.path = false
      · obtain ⟨g1, g2, g3, g4, g5⟩ := hg s (List.mem_cons_self _ _) hp
        cases hbv : fs.read s.path with
        | none => rw [hbv] at g5; simp [isBytes] at g5
        | some d =>
          cases d with
          | manifest m => rw [hbv] at g5; simp [isBytes] at g5
          | catalog l => rw [hbv] at g5; simp [isBytes] at g5
          | bytes b =>
            have hsucc := backup_noFaults_success fs ts s b g1 g2 hbv
            have hmp : isPrefList ("backups/" : String).data (metaPathOf s).data = true :=
              backups_path_prefix s.name "metadata.json"
            have hop : isPrefList ("backups/" : String).data (outFileOf s).data = true :=
              backups_path_prefix s.name (basename s.path ++ ".gz")
            have hpres1 : ∀ q, isPrefList ("backups/" : String).data q.data = false →
                (((fs.mkdirPure (folderOf s)).writePure (outFileOf s)
                  (.bytes (compress_bytes b))).writePure (metaPathOf s)
                  (.manifest (mkManifest s ts b))).read q = fs.read q := by
              intro q hq
              rw [FS.read_writePure_ne _ (not_prefix_ne hmp hq) _]
              rw [FS.read_writePure_ne _ (not_prefix_ne hop hq) _]
              exact FS.read_mkdirPure _ _ _
            have hg' : ∀ t ∈ rest, t.pending_backup = true →
                GoodRec (((fs.mkdirPure (folderOf s)).writePure (outFileOf s)
                  (.bytes (compress_bytes b))).writePure (metaPathOf s)
                  (.manifest (mkManifest s ts b))) t := by
              intro t ht hpt
              obtain ⟨k1, k2, k3, k4, k5⟩ := hg t (List.mem_cons_of_mem _ ht) hpt
              exact ⟨k1, k2, k3, k4, by rw [hpres1 t.path k3]; exact k5⟩
            obtain ⟨fs2, hrec, hpres2⟩ := ih _ hg'
            refine ⟨fs2, ?_, fun q hq => by rw [hpres2 q hq]; exact hpres1 q hq⟩
            simp only [sweepGo, sweepOne, hp, if_true, hr, eq_self_iff_true, hsucc, hrec]
            simp [clearSweep, hp, hr]
      · have hr' : is_running e s.path = true := by
          cases hx : is_running e s.path
          · exact absurd hx hr
          · rfl
        obtain ⟨fs2, hrec, hpres2⟩ :=
          ih fs (fun t ht hpt => hg t (List.mem_cons_of_mem _ ht) hpt)
        refine ⟨fs2, ?_, hpres2⟩
        simp only [sweepGo, sweepOne, hp, if_true, hr', Bool.true_eq_false, if_false, hrec]
        simp [clearSweep, hp, hr']
    · have hp' : s.pending_backup = false := by
        cases hx : s.pending_backup
        · rfl
        · exact absurd hx hp
      obtain ⟨fs2, hrec, hpres2⟩ :=
        ih fs (fun t ht hpt => hg t (List.mem_cons_of_mem _ ht) hpt)
      refine ⟨fs2, ?_, hpres2⟩
      simp only [sweepGo, sweepOne, hp', Bool.false_eq_true, if_false, hrec]
      simp [clearSweep, hp']

theorem list_map_id_of (l : List Script) (f : Script → Script) (h : ∀ a ∈ l, f a = a) :
    l.map f = l := by
  induction l with
  | nil => rfl
  | cons a t ih =>
    simp [h a (List.mem_cons_self _ _), ih (fun b hb => h b (List.mem_cons_of_mem _ hb))]

theorem workerIter_shape (e : Env) (ts : String) (fs : FS) (scripts : List Script)
    (hcat : fs.read DATA_FILE = some (.catalog scripts))
    (hg : ∀ s ∈ scripts, s.pending_backup = true → GoodRec fs s) :
    ∃ fs', workerIter e noFaults ts fs =
        .ok (fs', !scripts.any (fun s => s.pending_backup)) ∧
      fs'.read DATA_FILE = some (.catalog (scripts.map (clearSweep e))) ∧
      ∀ q, isPrefList ("backups/" : String).data q.data = false → q ≠ DATA_FILE →
        fs'.read q = fs.read q := by
  obtain ⟨fs1, hsweep, hpres⟩ := sweepGo_shape e ts scripts fs hg
  have hload : load_scripts fs = scripts := by
    unfold load_scripts
    rw [hcat]
  by_cases hch : scripts.any (fun s => s.pending_backup && !(is_running e s.path)) = true
  · refine ⟨fs1.writePure DATA_FILE (.catalog (scripts.map (clearSweep e))), ?_, ?_, ?_⟩
    · unfold workerIter
      dsimp only
      simp only [hload, hsweep, hch, eq_self_iff_true, if_true]
      simp only [save_scripts, writeE, noFaults, Bool.false_eq_true, if_false]
    · exact FS.read_writePure_self _ _ _
    · intro q hq hqd
      rw [FS.read_writePure_ne _ hqd _]
      exact hpres q hq
  · have hch' : scripts.any (fun s => s.pending_backup && !(is_running e s.path)) = false := by
      cases hx : scripts.any (fun s => s.pending_backup && !(is_running e s.path))
      · rfl
      · exact absurd hx hch
    have hmap : scripts.map (clearSweep e) = scripts := by
      apply list_map_id_of
      intro a ha
      have hfa := List.any_eq_false.mp hch' a ha
      unfold clearSweep
      rw [if_neg (by simpa using hfa)]
    refine ⟨fs1, ?_, ?_, fun q hq _ => hpres q hq⟩
    · unfold workerIter
      dsimp only
      simp only [hload, hsweep, hch', Bool.false_eq_true, if_false]
    · rw [hmap, hpres DATA_FILE backups_not_prefix_data]
      exact hcat

theorem clearSweep_pending {e : Env} {a : Script}
    (h : (clearSweep e a).pending_backup = true) :
    clearSweep e a = a ∧ a.pending_backup = true := by
  unfold clearSweep at h ⊢
  by_cases hc : (a.pending_backup && !(is_running e a.path)) = true
  · rw [if_pos hc] at h
    simp at h
  · rw [if_neg hc] at h ⊢
    exact ⟨rfl, h⟩

theorem all_cleared (e : Env) (scripts : List Script)
    (h : ∀ s ∈ scripts, s.pending_backup = true → is_running e s.path = false) :
    (scripts.map (clearSweep e)).all (fun s => !s.pending_backup) = true := by
  rw [List.all_eq_true]
  intro x hx
  rw [List.mem_map] at hx
  obtain ⟨a, ha, rfl⟩ := hx
  unfold clearSweep
  by_cases hpa : a.pending_backup = true
  · rw [hpa, h a ha hpa]
    simp
  · have hpa' : a.pending_backup = false := by
      cases hq : a.pending_backup
      · rfl
      · exact absurd hq hpa
    simp [hpa']

theorem any_pending_of_all_cleared (l : List Script)
    (h : l.all (fun s => !s.pending_backup) = true) :
    l.any (fun s => s.pending_backup) = false := by
  rw [List.any_eq_false]
  intro x hx
  have := List.all_eq_true.mp h x hx
  simpa using this

/-- One-step unfolding of the worker loop. -/
theorem workerRun_step (envs : Nat → Env) (fm : FaultModel) (ts : String)
    (fuel t : Nat) (fs : FS) :
    workerRun envs fm ts (fuel + 1) t fs =
      match workerIter (envs t) fm ts fs with
      | .error err => .error err
      | .ok (fs1, halted) =>
        if halted then .ok (fs1, true) else workerRun envs fm ts fuel (t + 1) fs1 := rfl

theorem workerRun_halt_extend (envs : Nat → Env) (fm : FaultModel) (ts : String) :
    ∀ (F t : Nat) (fs fsf : FS) (e : Nat),
    workerRun envs fm ts F t fs = .ok (fsf, true) →
    workerRun envs fm ts (F + e) t fs = .ok (fsf, true) := by
  intro F
  induction F with
  | zero =>
    intro t fs fsf e h
    simp only [workerRun] at h
    simp at h
  | succ f ih =>
    intro t fs fsf e h
    rw [show f + 1 + e = (f + e) + 1 from by omega]
    rw [workerRun_step] at h ⊢
    cases hi : workerIter (envs t) fm ts fs with
    | error err => rw [hi] at h; simp at h
    | ok r =>
      obtain ⟨fs1, halted⟩ := r
      rw [hi] at h
      cases halted with
      | true => simpa using h
      | false =>
        simp only [Bool.false_eq_true, if_false] at h ⊢
        exact ih (t + 1) fs1 fsf e h

theorem workerRun_converges (envs : Nat → Env) (ts : String) :
    ∀ (K t0 : Nat) (fs : FS) (scripts : List Script),
    fs.read DATA_FILE = some (.catalog scripts) →
    (∀ s ∈ scripts, s.pending_backup = true → GoodRec fs s) →
    (∀ s ∈ scripts, s.pending_backup = true → ∀ t, t0 + K ≤ t →
      is_running (envs t) s.path = false) →
    ∃ fsf, workerRun envs noFaults ts (K + 2) t0 fs = .ok (fsf, true) ∧
      (load_scripts fsf).all (fun s => !s.pending_backup) = true := by
  intro K
  induction K with
  | zero =>
    intro t0 fs scripts hcat hg henv
    obtain ⟨fs1, hiter, hcat1, hpres1⟩ := workerIter_shape (envs t0) ts fs scripts hcat hg
    have hallc : (scripts.map (clearSweep (envs t0))).all
        (fun s => !s.pending_backup) = true :=
      all_cleared _ _ (fun s hs hp => henv s hs hp t0 (by omega))
    rw [show (0 : Nat) + 2 = 1 + 1 from rfl, workerRun_step, hiter]
    cases hany : scripts.any (fun s => s.pending_backup) with
    | false =>
      refine ⟨fs1, ?_, ?_⟩
      · simp [hany]
      · unfold load_scripts
        rw [hcat1]
        exact hallc
    | true =>
      simp only [hany, Bool.not_true, Bool.false_eq_true, if_false]
      obtain ⟨fs2, hiter2, hcat2, hpres2⟩ :=
        workerIter_shape (envs (t0 + 1)) ts fs1 (scripts.map (clearSweep (envs t0))) hcat1
          (fun s hs hp => absurd hp (by
            have := List.all_eq_true.mp hallc s hs
            simpa using this))
      rw [workerRun_step, hiter2]
      rw [any_pending_of_all_cleared _ hallc]
      refine ⟨fs2, by simp, ?_⟩
      unfold load_scripts
      rw [hcat2]
      rw [list_map_id_of _ _ (fun a ha => by
        have := List.all_eq_true.mp hallc a ha
        unfold clearSweep
        rw [if_neg (by simp at this ⊢; simp [this])])]
      exact hallc
  | succ k ih =>
    intro t0 fs scripts hcat hg henv
    obtain ⟨fs1, hiter, hcat1, hpres1⟩ := workerIter_shape (envs t0) ts fs scripts hcat hg
    rw [show k + 1 + 2 = (k + 2) + 1 from by omega, workerRun_step, hiter]
    cases hany : scripts.any (fun s => s.pending_backup) with
    | false =>
      refine ⟨fs1, by simp, ?_⟩
      unfold load_scripts
      rw [hcat1]
      apply all_cleared
      intro s hs hp
      exact absurd hp (by
        have := List.any_eq_false.mp (by simpa using hany) s hs
        simpa using this)
    | true =>
      simp only [hany, Bool.not_true, Bool.false_eq_true, if_false]
      have hg1 : ∀ s1 ∈ scripts.map (clearSweep (envs t0)), s1.pending_backup = true →
          GoodRec fs1 s1 := by
        intro s1 hs1 hp1
        rw [List.mem_map] at hs1
        obtain ⟨a, ha, rfl⟩ := hs1
        obtain ⟨heq, hpa⟩ := clearSweep_pending hp1
        rw [heq]
        obtain ⟨k1, k2, k3, k4, k5⟩ := hg a ha hpa
        exact ⟨k1, k2, k3, k4, by rw [hpres1 a.path k3 k4]; exact k5⟩
      have henv1 : ∀ s1 ∈ scripts.map (clearSweep (envs t0)), s1.pending_backup = true →
          ∀ t, (t0 + 1) + k ≤ t → is_running (envs t) s1.path = false := by
        intro s1 hs1 hp1 t ht
        rw [List.mem_map] at hs1
        obtain ⟨a, ha, rfl⟩ := hs1
        obtain ⟨heq, hpa⟩ := clearSweep_pending hp1
        rw [heq]
        exact henv a ha hpa t (by omega)
      obtain ⟨fsf, hrun, hall⟩ :=
        ih (t0 + 1) fs1 (scripts.map (clearSweep (envs t0))) hcat1 hg1 henv1
      exact ⟨fsf, hrun, hall⟩

/-- C5: if every pending record of the catalog has a valid, readable
source (so its backup attempt succeeds) and its file is judged not in use
from the `K`-th sweep on, then within `K` sweeps the scheduler clears all
pending flags; the loop then observes an empty pending set, stops
permanently within `K + 1` sweeps, and giving it any additional fuel makes
no difference — the loop never restarts itself. -/
theorem scheduler_convergence (envs : Nat → Env) (ts : String) (fs : FS)
    (scripts : List Script) (K : Nat)
    (hcat : fs.read DATA_FILE = some (.catalog scripts))
    (hK : 0 < K)
    (hgood : ∀ s ∈ scripts, s.pending_backup = true → GoodRec fs s)
    (henv : ∀ s ∈ scripts, s.pending_backup = true → ∀ t, K ≤ t + 1 →
      is_running (envs t) s.path = false) :
    ∃ fsf, workerRun envs noFaults ts (K + 1) 0 fs = .ok (fsf, true) ∧
      (load_scripts fsf).all (fun s => !s.pending_backup) = true ∧
      ∀ e, workerRun envs noFaults ts (K + 1 + e) 0 fs = .ok (fsf, true) := by
  obtain ⟨fsf, h1, h2⟩ := workerRun_converges envs ts (K - 1) 0 fs scripts hcat hgood
    (fun s hs hp t ht => henv s hs hp t (by omega))
  rw [show K - 1 + 2 = K + 1 from by omega] at h1
  exact ⟨fsf, h1, h2, fun e => workerRun_halt_extend envs noFaults ts (K + 1) 0 fs fsf e h1⟩

def c5s : Script := ⟨"s", "f.py", "", true⟩

def c5fs : FS := ⟨[(DATA_FILE, .catalog [c5s]), ("f.py", .bytes [9])], [], []⟩

def c5fsf : FS :=
  match workerRun (fun _ => envNone) noFaults "t" 2 0 c5fs with
  | .ok (f, _) => f
  | .error _ => c5fs

theorem scheduler_convergence_witness :
    workerRun (fun _ => envNone) noFaults "t" 2 0 c5fs = .ok (c5fsf, true) ∧
    (load_scripts c5fsf).all (fun s => !s.pending_backup) = true := by
  obtain ⟨fsf, h1, h2, -⟩ := scheduler_convergence (fun _ => envNone) "t" c5fs [c5s] 1
    rfl (by decide)
    (fun s hs hp => by
      simp only [List.mem_singleton] at hs
      subst hs
      exact ⟨by decide, by decide, by decide, by decide, rfl⟩)
    (fun s hs hp t ht => rfl)
  have he : c5fsf = fsf := by
    unfold c5fsf
    rw [show (1 : Nat) + 1 = 2 from rfl] at h1
    rw [h1]
  rw [he]
  have h1' := h1
  rw [show (1 : Nat) + 1 = 2 from rfl] at h1'
  exact ⟨h1', h2⟩

end ScDb
